import Mathlib

/-!
Verification of the proposer-payment data pipeline.

The development shallowly embeds the program's single source file:

* machine integers (`u64`, `usize`, `U256`) are modelled as `Nat`; no
  operation in the program can overflow the 256-bit or 64-bit range
  upward, and downward overflow (underflow) is modelled explicitly with
  `checked_sub` (`none` corresponds to a Rust panic for the unchecked
  `u64`/`usize` subtractions, and to `None` for `U256::checked_sub`);
* addresses and hashes are opaque values compared for equality only, so
  they are modelled as `Nat`;
* the remote RPC collaborator is modelled by passing the responses of the
  three calls (block traces, block with transactions, balance by height)
  as parameters; a transport failure is an `Except.error`.
-/

abbrev Address : Type := Nat

abbrev H256 : Type := Nat

abbrev U256 : Type := Nat

/-- `checked_sub a b` models both `U256::checked_sub` and, where the Rust
code subtracts unchecked machine integers (`usize`/`u64`), the fact that
the subtraction is a program error (panic) on underflow: `none` is the
underflow case. -/
def checked_sub (a b : Nat) : Option Nat :=
  if b ≤ a then some (a - b) else none

/-- Call type of a trace action (`ethers::types::CallType`). -/
inductive CallType : Type
  | call
  | callCode
  | delegateCall
  | staticCall
deriving DecidableEq

/-- The payload of a `Call` trace action; only the fields the program
reads are modelled. -/
structure CallAction : Type where
  «from» : Address
  «to» : Address
  value : U256
  call_type : CallType
deriving DecidableEq

/-- A trace action (`ethers::types::Action`); the non-`Call` payloads are
never read by the program. -/
inductive TraceAction : Type
  | call (c : CallAction)
  | create
  | suicide
  | reward
deriving DecidableEq

/-- One execution trace (`ethers::types::Trace`), restricted to the fields
the program reads. -/
structure Trace : Type where
  action : TraceAction
  error : Option String
  block_number : Nat
  transaction_hash : Option H256
deriving DecidableEq

/-- `TransferData` from the source. -/
structure TransferData : Type where
  block_number : Nat
  tx_hash : H256
  «from» : Address
  «to» : Address
  value : U256
deriving DecidableEq

/-- `extract_transfers` from the source: scan the traces in order, keep
those that are plain value-transfer calls (`CallType::Call`), with no
error, a known transaction hash and a non-zero value. -/
def extract_transfers : List Trace → List TransferData
  | [] => []
  | trace :: rest =>
    match trace with
    | { action := TraceAction.call { «from» := f, «to» := t, value := v, call_type := CallType.call },
        error := none, block_number := bn, transaction_hash := some txh } =>
      if v = 0 then extract_transfers rest
      else { block_number := bn, tx_hash := txh, «from» := f, «to» := t, value := v } ::
        extract_transfers rest
    | _ => extract_transfers rest

/-- Spec-side description of the Transfer Extractor (refinement target,
written from the specification's words): a trace is emitted iff its action
is a plain value-transfer call, it reports no error, it has a transaction
hash, and its value is strictly positive. -/
def trace_transfer_spec (tr : Trace) : Option TransferData :=
  match tr.action with
  | TraceAction.call c =>
    match c.call_type with
    | CallType.call =>
      match tr.error with
      | none =>
        match tr.transaction_hash with
        | some h =>
          if 0 < c.value then
            some { block_number := tr.block_number, tx_hash := h,
                   «from» := c.«from», «to» := c.«to», value := c.value }
          else none
        | none => none
      | some _ => none
    | _ => none
  | _ => none

/-- `ProposerPayment` from the source. -/
inductive ProposerPayment : Type
  | LastTxDirect («from» : Address) («to» : Address) (value : U256)
  | LastTxContract («from» : Address) (contract : Address) (value : U256)
  | Coinbase (a : Address)
  | Unknown
deriving DecidableEq

/-- `ProposerPayment::is_last_tx` from the source. -/
def ProposerPayment.is_last_tx : ProposerPayment → Bool
  | ProposerPayment.LastTxDirect _ _ _ => true
  | ProposerPayment.LastTxContract _ _ _ => true
  | _ => false

/-- A transaction (`ethers::types::Transaction`), restricted to the fields
the program reads. -/
structure Transaction : Type where
  hash : H256
  «from» : Address
  «to» : Option Address
  value : U256
deriving DecidableEq

/-- A validator withdrawal, restricted to the fields the program reads. -/
structure Withdrawal : Type where
  address : Address
  amount : U256
deriving DecidableEq

/-- A block (`ethers::types::Block<Transaction>`), restricted to the
fields the program reads. -/
structure Block : Type where
  author : Option Address
  withdrawals : Option (List Withdrawal)
  transactions : List Transaction
deriving DecidableEq

/-- The payment-classification decision inlined in
`get_block_proposer_payment_data` (source lines 159-190), extracted as a
function of its inputs.  `Option.getD _ 0` renders `Option::unwrap` (total
here, guarded by `last_tx.«to» = some fee_recipient`) and
`Option::unwrap_or_default` (the zero address is `Address::default()`). -/
def classify_payment (coinbase : Address) (transactions : List Transaction)
    (transfers : List TransferData) (fee_recipient : Address) : ProposerPayment :=
  if coinbase = fee_recipient then
    ProposerPayment.Coinbase coinbase
  else
    match transactions.getLast? with
    | some last_tx =>
      if last_tx.«to» = some fee_recipient then
        ProposerPayment.LastTxDirect last_tx.«from» (last_tx.«to».getD 0) last_tx.value
      else
        match transfers.getLast? with
        | some last_transfer =>
          if last_transfer.tx_hash = last_tx.hash ∧ last_transfer.«to» = fee_recipient then
            ProposerPayment.LastTxContract last_tx.«from» (last_tx.«to».getD 0) last_transfer.value
          else ProposerPayment.Unknown
        | none => ProposerPayment.Unknown
    | none => ProposerPayment.Unknown

/-- The classifier decision tree exactly as the claim states it; it
differs from the source in branch (3), which here demands that the last
transaction's destination be present (`some contract`) and uses that
destination as the contract. -/
def classify_claim (coinbase : Address) (transactions : List Transaction)
    (transfers : List TransferData) (fee_recipient : Address) : ProposerPayment :=
  if coinbase = fee_recipient then
    ProposerPayment.Coinbase coinbase
  else
    match transactions.getLast? with
    | none => ProposerPayment.Unknown
    | some last_tx =>
      if last_tx.«to» = some fee_recipient then
        ProposerPayment.LastTxDirect last_tx.«from» fee_recipient last_tx.value
      else
        match last_tx.«to» with
        | some contract =>
          match transfers.getLast? with
          | some last_transfer =>
            if last_transfer.tx_hash = last_tx.hash ∧ last_transfer.«to» = fee_recipient then
              ProposerPayment.LastTxContract last_tx.«from» contract last_transfer.value
            else ProposerPayment.Unknown
          | none => ProposerPayment.Unknown
        | none => ProposerPayment.Unknown

/-- The claim's decision tree amended to match the source: branch (3) does
not require the last transaction's destination to be present; when absent
the contract field is the zero address. -/
def classify_amended (coinbase : Address) (transactions : List Transaction)
    (transfers : List TransferData) (fee_recipient : Address) : ProposerPayment :=
  if coinbase = fee_recipient then
    ProposerPayment.Coinbase coinbase
  else
    match transactions.getLast? with
    | none => ProposerPayment.Unknown
    | some last_tx =>
      if last_tx.«to» = some fee_recipient then
        ProposerPayment.LastTxDirect last_tx.«from» fee_recipient last_tx.value
      else
        match transfers.getLast? with
        | some last_transfer =>
          if last_transfer.tx_hash = last_tx.hash ∧ last_transfer.«to» = fee_recipient then
            ProposerPayment.LastTxContract last_tx.«from» (last_tx.«to».getD 0) last_transfer.value
          else ProposerPayment.Unknown
        | none => ProposerPayment.Unknown

/-- `BlockProposerPaymentData` from the source. -/
structure BlockProposerPaymentData : Type where
  block_number : Nat
  fee_recipient : Address
  bid_value : U256
  fee_recipient_transfers : List TransferData
  fee_recipient_withdrawals : List Withdrawal
  payment : ProposerPayment
  balance_diff : U256
deriving DecidableEq

/-- `get_block_proposer_payment_data` from the source.  The three RPC
responses are parameters: `tracesR` is the `trace_block` response,
`blockR` the `get_block_with_txs` response (`none` inside `ok` meaning
the block was not found), and `balR` maps a block height to the
`get_balance` response.  The outer `Option` is the panic layer: `none`
models the unchecked `u64` subtraction `block_numer - 1` underflowing at
`block_numer = 0`; an `Except.error` is a collaborator failure (any `?`
propagation, or the explicit "block not found"). -/
def get_block_proposer_payment_data
    (tracesR : Except String (List Trace))
    (blockR : Except String (Option Block))
    (balR : Nat → Except String U256)
    (block_numer : Nat) (fee_recipient : Address) (bid_value : U256) :
    Option (Except String BlockProposerPaymentData) :=
  match tracesR with
  | Except.error e => some (Except.error e)
  | Except.ok traceList =>
    let transfers :=
      (extract_transfers traceList).filter
        (fun t => t.«to» == fee_recipient || t.«from» == fee_recipient)
    match blockR with
    | Except.error e => some (Except.error e)
    | Except.ok none => some (Except.error "block not found")
    | Except.ok (some block) =>
      let withdrawals := (block.withdrawals.getD []).filter (fun w => w.address == fee_recipient)
      let coinbase := block.author.getD 0
      let payment := classify_payment coinbase block.transactions transfers fee_recipient
      match checked_sub block_numer 1 with
      | none => none
      | some prev =>
        match balR prev with
        | Except.error e => some (Except.error e)
        | Except.ok balance_before =>
          match balR block_numer with
          | Except.error e => some (Except.error e)
          | Except.ok balance_after =>
            some (Except.ok
              { block_number := block_numer, fee_recipient := fee_recipient,
                bid_value := bid_value,
                fee_recipient_transfers := transfers,
                fee_recipient_withdrawals := withdrawals,
                payment := payment,
                balance_diff := (checked_sub balance_after balance_before).getD 0 })

/-- `BoostRelayDataEntry` from the source (one input record). -/
structure BoostRelayDataEntry : Type where
  slot : Nat
  proposer_fee_recipient : Address
  value : U256
  block_number : Nat
deriving DecidableEq

/-- `OutputFileEntry` from the source (one output record). -/
structure OutputFileEntry : Type where
  slot : Nat
  block_number : Nat
  bid_value : U256
  balance_diff : U256
  payment_type : String
  withdrawals : Nat
  transfers : Nat
  transfers_in : Nat
  transfers_out : Nat
deriving DecidableEq

/-- The `payment_type` serialization in `process_input_entry`. -/
def payment_type_string : ProposerPayment → String
  | ProposerPayment.LastTxDirect _ _ _ => "last_tx_direct"
  | ProposerPayment.LastTxContract _ _ _ => "last_tx_contract"
  | ProposerPayment.Coinbase _ => "coinbase"
  | ProposerPayment.Unknown => "unknown"

/-- The pure tail of `process_input_entry` from the source: map the input
record and the assembled payment data to an output record.  The two
`usize` subtractions of the source are unchecked; `none` models the
underflow panic. -/
def process_input_entry (input : BoostRelayDataEntry) (data : BlockProposerPaymentData) :
    Option OutputFileEntry :=
  match
    (if data.payment.is_last_tx then checked_sub data.fee_recipient_transfers.length 1
     else some data.fee_recipient_transfers.length),
    checked_sub
      ((data.fee_recipient_transfers.filter (fun t => t.«to» == data.fee_recipient)).length)
      (if data.payment.is_last_tx then 1 else 0) with
  | some transfers, some transfers_in =>
    some { slot := input.slot, block_number := data.block_number,
           bid_value := data.bid_value, balance_diff := data.balance_diff,
           payment_type := payment_type_string data.payment,
           withdrawals := data.fee_recipient_withdrawals.length,
           transfers := transfers, transfers_in := transfers_in,
           transfers_out :=
             (data.fee_recipient_transfers.filter
               (fun t => t.«from» == data.fee_recipient)).length }
  | _, _ => none

/-- `process_input_entry` composed with the assembler, as the source
composes them (the whole per-item task body). -/
def run_process_input_entry
    (tracesR : Except String (List Trace))
    (blockR : Except String (Option Block))
    (balR : Nat → Except String U256)
    (input : BoostRelayDataEntry) : Option (Except String OutputFileEntry) :=
  match get_block_proposer_payment_data tracesR blockR balR
      input.block_number input.proposer_fee_recipient input.value with
  | none => none
  | some (Except.error e) => some (Except.error e)
  | some (Except.ok data) =>
    match process_input_entry input data with
    | none => none
    | some out => some (Except.ok out)

/-- Slots already present in the output file (`processed_set` in the
source; a hash set there, a list of slots here — only membership is ever
consulted). -/
def slotsOf (outs : List OutputFileEntry) : List Nat :=
  outs.map (fun e => e.slot)

/-- The work queue built in `main`: input records whose slot is not in
the processed set, kept in input-file order. -/
def workQueue (inputs : List BoostRelayDataEntry) (processed : List OutputFileEntry) :
    List BoostRelayDataEntry :=
  inputs.filter (fun e => !((slotsOf processed).contains e.slot))

/-- Ordering of output records by slot, the key of the source's
`sort_by_key(|e| e.slot)`. -/
def slotLe (a b : OutputFileEntry) : Prop :=
  a.slot ≤ b.slot

instance : DecidableRel slotLe := fun a b => Nat.decLe a.slot b.slot

instance : IsTotal OutputFileEntry slotLe := ⟨fun a b => Nat.le_total a.slot b.slot⟩

instance : IsTrans OutputFileEntry slotLe := ⟨fun _ _ _ => Nat.le_trans⟩

/-- The source's `processed.sort_by_key(|e| e.slot)` is a stable sort by
slot; a stable sort is determined by its comparison key, so insertion
sort by `slotLe` computes the same list. -/
def sortBySlot (l : List OutputFileEntry) : List OutputFileEntry :=
  List.insertionSort slotLe l

/-- `slice::chunks`: split a list into consecutive chunks of size `k`
(the last one possibly shorter).  Rust panics when `k = 0`; the model
clamps the chunk size to 1 there (the program's chunk size is the CLI
parallelism, default 10). -/
def chunksOf (k : Nat) : List BoostRelayDataEntry → List (List BoostRelayDataEntry)
  | [] => []
  | x :: xs =>
    ((x :: xs).take (max k 1)) :: chunksOf k ((x :: xs).drop (max k 1))
termination_by l => l.length
decreasing_by
  simp only [List.length_drop, List.length_cons]
  omega

/-- One iteration of the chunk loop in `main`: run the per-item task on
every chunk item, drop the failures, sort the successes by slot.
`proc` is the per-item task (`process_input_entry` against the RPC
collaborator); `none` is a failed task (logged and dropped). -/
def processChunk (proc : BoostRelayDataEntry → Option OutputFileEntry)
    (chunk : List BoostRelayDataEntry) : List OutputFileEntry :=
  sortBySlot (chunk.filterMap proc)

/-- The chunk loop of `main`: `acc` is the content of the output file so
far; each chunk's sorted results are appended (and flushed) before the
next chunk starts. -/
def runChunks (proc : BoostRelayDataEntry → Option OutputFileEntry)
    (acc : List OutputFileEntry) : List (List BoostRelayDataEntry) → List OutputFileEntry
  | [] => acc
  | c :: rest => runChunks proc (acc ++ processChunk proc c) rest

/-- The whole batch run of `main`'s `File` branch: load `existing`
output records, filter the inputs against their slots, replay the
existing records, then process the work queue in chunks.  The result is
the final content of the output file. -/
def runBatch (proc : BoostRelayDataEntry → Option OutputFileEntry) (k : Nat)
    (inputs : List BoostRelayDataEntry) (existing : List OutputFileEntry) :
    List OutputFileEntry :=
  runChunks proc existing (chunksOf k (workQueue inputs existing))

/-! ## Helper lemmas about the pipeline model -/

theorem runChunks_eq (proc : BoostRelayDataEntry → Option OutputFileEntry)
    (cs : List (List BoostRelayDataEntry)) (acc : List OutputFileEntry) :
    runChunks proc acc cs = acc ++ (cs.map (processChunk proc)).flatten := by
  induction cs generalizing acc with
  | nil => simp [runChunks]
  | cons c rest ih =>
    simp [runChunks, ih, List.append_assoc]

theorem chunksOf_flatten (k : Nat) : ∀ l : List BoostRelayDataEntry,
    (chunksOf k l).flatten = l
  | [] => by simp [chunksOf]
  | x :: xs => by
    rw [chunksOf, List.flatten_cons, chunksOf_flatten k ((x :: xs).drop (max k 1))]
    exact List.take_append_drop _ _
termination_by l => l.length
decreasing_by
  simp only [List.length_drop, List.length_cons]
  omega

theorem mem_workQueue {inputs : List BoostRelayDataEntry} {processed : List OutputFileEntry}
    {e : BoostRelayDataEntry} :
    e ∈ workQueue inputs processed ↔ e ∈ inputs ∧ e.slot ∉ slotsOf processed := by
  simp [workQueue, List.mem_filter, List.elem_iff]

theorem workQueue_nil (inputs : List BoostRelayDataEntry) : workQueue inputs [] = inputs := by
  simp [workQueue, slotsOf, List.filter_eq_self]

theorem mem_processChunk {proc : BoostRelayDataEntry → Option OutputFileEntry}
    {c : List BoostRelayDataEntry} {r : OutputFileEntry} :
    r ∈ processChunk proc c ↔ ∃ e ∈ c, proc e = some r := by
  simp [processChunk, sortBySlot, List.mem_insertionSort, List.mem_filterMap]

theorem processChunk_eq_nil {proc : BoostRelayDataEntry → Option OutputFileEntry}
    {c : List BoostRelayDataEntry} (h : ∀ e ∈ c, proc e = none) :
    processChunk proc c = [] := by
  have : c.filterMap proc = [] := List.filterMap_eq_nil_iff.mpr h
  simp [processChunk, sortBySlot, this]

theorem mem_runBatch_of_success {proc : BoostRelayDataEntry → Option OutputFileEntry}
    {k : Nat} {inputs : List BoostRelayDataEntry} {existing : List OutputFileEntry}
    {e : BoostRelayDataEntry} {r : OutputFileEntry}
    (he : e ∈ workQueue inputs existing) (hr : proc e = some r) :
    r ∈ runBatch proc k inputs existing := by
  have hfl : e ∈ (chunksOf k (workQueue inputs existing)).flatten := by
    rw [chunksOf_flatten]
    exact he
  obtain ⟨c, hc, hec⟩ := List.mem_flatten.mp hfl
  have hrc : r ∈ processChunk proc c := mem_processChunk.mpr ⟨e, hec, hr⟩
  rw [runBatch, runChunks_eq]
  exact List.mem_append.mpr (Or.inr
    (List.mem_flatten.mpr ⟨processChunk proc c, List.mem_map.mpr ⟨c, hc, rfl⟩, hrc⟩))

/-! ## Claim theorems -/

/-- C1, counterexample: the classifier does not follow the claim's
decision tree.  When the block's last transaction has no destination at
all (a contract creation) and the last recipient-filtered trace-transfer
belongs to that transaction and targets the recipient, the code returns
`LastTxContract` with the zero address as contract, while the claim's
branch (3) — which requires the destination to be some contract — makes
no branch match, yielding `Unknown`. -/
theorem classify_payment_claim_cex :
    classify_payment 0 [⟨5, 2, none, 0⟩] [⟨9, 5, 3, 1, 7⟩] 1
        = ProposerPayment.LastTxContract 2 0 7 ∧
    classify_claim 0 [⟨5, 2, none, 0⟩] [⟨9, 5, 3, 1, 7⟩] 1 = ProposerPayment.Unknown ∧
    classify_payment 0 [⟨5, 2, none, 0⟩] [⟨9, 5, 3, 1, 7⟩] 1
        ≠ classify_claim 0 [⟨5, 2, none, 0⟩] [⟨9, 5, 3, 1, 7⟩] 1 := by
  refine ⟨rfl, rfl, ?_⟩
  decide

/-- C1, amended: the classifier returns exactly one variant following the
claim's first-match-wins order, except that branch (3) does not require
the last transaction's destination to be present; when it is absent the
`LastTxContract` contract field is the zero address. -/
theorem classify_payment_amended_tree (coinbase : Address) (txs : List Transaction)
    (transfers : List TransferData) (fr : Address) :
    classify_payment coinbase txs transfers fr = classify_amended coinbase txs transfers fr := by
  unfold classify_payment classify_amended
  rcases htx : txs.getLast? with _ | last_tx <;>
    rcases htr : transfers.getLast? with _ | lt <;>
      simp only [] <;> split_ifs with h1 h2 <;> simp_all

/-- C5: the Transfer Extractor emits exactly the traces that are plain
value-transfer calls with no error, a present transaction hash and a
strictly positive value, in source order, dropping all others; the empty
trace list yields the empty sequence. -/
theorem extract_transfers_filter_spec :
    (∀ traces, extract_transfers traces = List.filterMap trace_transfer_spec traces) ∧
    extract_transfers [] = [] := by
  refine ⟨?_, rfl⟩
  intro traces
  induction traces with
  | nil => rfl
  | cons tr rest ih =>
    obtain ⟨act, err, bn, txh⟩ := tr
    cases act with
    | call c =>
      obtain ⟨f, t, v, ct⟩ := c
      rcases ct <;> rcases err with _ | e <;> rcases txh with _ | h <;>
        by_cases hv : v = 0 <;>
          simp [extract_transfers, trace_transfer_spec, List.filterMap_cons, ih, hv,
            Nat.pos_iff_ne_zero]
    | create => simp [extract_transfers, trace_transfer_spec, List.filterMap_cons, ih]
    | suicide => simp [extract_transfers, trace_transfer_spec, List.filterMap_cons, ih]
    | reward => simp [extract_transfers, trace_transfer_spec, List.filterMap_cons, ih]

/-- C2: whenever the Record Transformer produces an output record, its
counts satisfy: for a last-tx payment, `transfers` is the transfer-list
length minus one and `transfers_in` is the receiving-transfer count minus
one (the payment-carrying transfer excluded exactly once from each,
stated subtraction-free as `+ 1`); otherwise both are the unadjusted
counts; `transfers_out` is always the unadjusted sending-transfer
count. -/
theorem process_input_entry_counts (input : BoostRelayDataEntry)
    (data : BlockProposerPaymentData) (out : OutputFileEntry)
    (h : process_input_entry input data = some out) :
    (data.payment.is_last_tx = true →
      out.transfers + 1 = data.fee_recipient_transfers.length ∧
      out.transfers_in + 1 =
        (data.fee_recipient_transfers.filter
          (fun t => t.«to» == data.fee_recipient)).length) ∧
    (data.payment.is_last_tx = false →
      out.transfers = data.fee_recipient_transfers.length ∧
      out.transfers_in =
        (data.fee_recipient_transfers.filter
          (fun t => t.«to» == data.fee_recipient)).length) ∧
    out.transfers_out =
      (data.fee_recipient_transfers.filter
        (fun t => t.«from» == data.fee_recipient)).length := by
  unfold process_input_entry checked_sub at h
  by_cases hl : data.payment.is_last_tx <;>
    simp only [hl, if_true, if_false, Bool.false_eq_true] at h ⊢ <;>
    split_ifs at h with h1 <;>
    simp only [Option.some.injEq] at h <;>
    subst h <;>
    simp_all

def inputW : BoostRelayDataEntry := ⟨100, 1, 0, 7⟩

def dataW : BlockProposerPaymentData :=
  ⟨7, 1, 0, [⟨7, 5, 2, 1, 5⟩], [], ProposerPayment.LastTxDirect 2 1 5, 5⟩

def outW : OutputFileEntry := ⟨100, 7, 0, 5, "last_tx_direct", 0, 0, 0, 0⟩

/-- C2, witness: a block whose last transaction pays the recipient
directly and whose trace yields exactly that one receiving transfer. -/
theorem process_input_entry_counts_witness :
    outW.transfers + 1 = dataW.fee_recipient_transfers.length ∧
    outW.transfers_in + 1 =
      (dataW.fee_recipient_transfers.filter
        (fun t => t.«to» == dataW.fee_recipient)).length ∧
    outW.transfers_out =
      (dataW.fee_recipient_transfers.filter
        (fun t => t.«from» == dataW.fee_recipient)).length := by
  have h := process_input_entry_counts inputW dataW outW rfl
  exact ⟨(h.1 rfl).1, (h.1 rfl).2, h.2.2⟩

def blockC3 : Block := ⟨some 9, some [], [⟨5, 2, some 1, 0⟩]⟩

def dataC3 : BlockProposerPaymentData :=
  ⟨7, 1, 0, [], [], ProposerPayment.LastTxDirect 2 1 0, 0⟩

/-- C3: the count subtraction is NOT guarded.  A reachable input — a
block whose last transaction is addressed to the recipient with value
zero and whose traces contain no recipient transfer — assembles to a
last-tx payment with an empty `fee_recipient_transfers`, and the
transformer's unchecked `usize` subtraction underflows (modelled `none`,
a panic) instead of producing an output record. -/
theorem process_input_entry_underflow :
    get_block_proposer_payment_data (Except.ok []) (Except.ok (some blockC3))
        (fun _ => Except.ok 0) 7 1 0 = some (Except.ok dataC3) ∧
    dataC3.payment.is_last_tx = true ∧
    dataC3.fee_recipient_transfers.length = 0 ∧
    process_input_entry ⟨100, 1, 0, 7⟩ dataC3 = none ∧
    run_process_input_entry (Except.ok []) (Except.ok (some blockC3))
        (fun _ => Except.ok 0) ⟨100, 1, 0, 7⟩ = none :=
  ⟨rfl, rfl, rfl, rfl, rfl⟩

/-- C4: the recipient balance delta assembled for a block is a saturating
subtraction of the balance at height `n - 1` from the balance at height
`n`: it equals the exact difference when that is non-negative, is zero
when the raw after-balance is below the before-balance, and is never
negative. -/
theorem balance_diff_saturating
    (tracesR : Except String (List Trace)) (blockR : Except String (Option Block))
    (balR : Nat → Except String U256) (n : Nat) (fr : Address) (bv : U256)
    (b0 b1 : U256) (d : BlockProposerPaymentData)
    (h0 : balR (n - 1) = Except.ok b0) (h1 : balR n = Except.ok b1)
    (hres : get_block_proposer_payment_data tracesR blockR balR n fr bv
      = some (Except.ok d)) :
    (b0 ≤ b1 → d.balance_diff = b1 - b0) ∧
    (b1 < b0 → d.balance_diff = 0) ∧
    0 ≤ (d.balance_diff : Int) := by
  cases tracesR with
  | error e => simp [get_block_proposer_payment_data] at hres
  | ok tl =>
    cases blockR with
    | error e => simp [get_block_proposer_payment_data] at hres
    | ok ob =>
      cases ob with
      | none => simp [get_block_proposer_payment_data] at hres
      | some b =>
        by_cases hn : 1 ≤ n
        · have hcs : checked_sub n 1 = some (n - 1) := by simp [checked_sub, hn]
          simp only [get_block_proposer_payment_data, hcs, h0, h1, Option.some.injEq,
            Except.ok.injEq] at hres
          subst hres
          simp only [checked_sub]
          split_ifs with hle
          · refine ⟨fun _ => rfl, fun hlt => absurd hle (Nat.not_le_of_lt hlt), ?_⟩
            simp
          · refine ⟨fun hge => absurd hge hle, fun _ => rfl, ?_⟩
            simp
        · have hcs : checked_sub n 1 = none := by
            simp only [checked_sub, if_neg hn]
          simp [get_block_proposer_payment_data, hcs] at hres

def dC4 : BlockProposerPaymentData := ⟨1, 1, 0, [], [], ProposerPayment.Unknown, 0⟩

/-- C4, witness: balances 5 before and 5 after at block 1. -/
theorem balance_diff_saturating_witness :
    (5 ≤ 5 → dC4.balance_diff = 5 - 5) ∧ (5 < 5 → dC4.balance_diff = 0) ∧
    0 ≤ (dC4.balance_diff : Int) :=
  balance_diff_saturating (Except.ok []) (Except.ok (some ⟨none, none, []⟩))
    (fun _ => Except.ok 5) 1 1 0 5 5 dC4 rfl rfl rfl

/-- C10: the assembler computes the prior-block height with an unchecked
`u64` subtraction, so it is total exactly on `block_number ≥ 1`: at block
0, when the earlier trace and block fetches succeed, it underflows
(modelled `none`, a panic) rather than returning a result or a
collaborator error; for any block number ≥ 1 it never underflows,
whatever the collaborator responses. -/
theorem assembler_block_number_precondition :
    (∀ (traces : List Trace) (block : Block) (balR : Nat → Except String U256)
        (fr : Address) (bv : U256),
      get_block_proposer_payment_data (Except.ok traces) (Except.ok (some block))
        balR 0 fr bv = none) ∧
    (∀ (tracesR : Except String (List Trace)) (blockR : Except String (Option Block))
        (balR : Nat → Except String U256) (n : Nat) (fr : Address) (bv : U256),
      1 ≤ n →
      get_block_proposer_payment_data tracesR blockR balR n fr bv ≠ none) := by
  constructor
  · intro traces block balR fr bv
    rfl
  · intro tracesR blockR balR n fr bv hn
    cases tracesR with
    | error e => simp [get_block_proposer_payment_data]
    | ok tl =>
      cases blockR with
      | error e => simp [get_block_proposer_payment_data]
      | ok ob =>
        cases ob with
        | none => simp [get_block_proposer_payment_data]
        | some b =>
          have hcs : checked_sub n 1 = some (n - 1) := by simp [checked_sub, hn]
          rcases hb0 : balR (n - 1) with e | b0
          · simp [get_block_proposer_payment_data, hcs, hb0]
          · rcases hb1 : balR n with e1 | b1 <;>
              simp [get_block_proposer_payment_data, hcs, hb0, hb1]

/-- C10, witness: block 0 panics on the success path; block 1 never
does, here with a block-not-found collaborator response. -/
theorem assembler_block_number_precondition_witness :
    get_block_proposer_payment_data (Except.ok []) (Except.ok (some ⟨none, none, []⟩))
      (fun _ => Except.ok 0) 0 1 0 = none ∧
    get_block_proposer_payment_data (Except.ok []) (Except.ok none)
      (fun _ => Except.ok 0) 1 1 0 ≠ none :=
  ⟨assembler_block_number_precondition.1 [] ⟨none, none, []⟩ (fun _ => Except.ok 0) 1 0,
   assembler_block_number_precondition.2 (Except.ok []) (Except.ok none)
     (fun _ => Except.ok 0) 1 1 0 (by omega)⟩

def in100 : BoostRelayDataEntry := ⟨100, 0, 0, 0⟩

def in101 : BoostRelayDataEntry := ⟨101, 0, 0, 0⟩

def in102 : BoostRelayDataEntry := ⟨102, 0, 0, 0⟩

def out101 : OutputFileEntry := ⟨101, 0, 0, 0, "unknown", 0, 0, 0, 0⟩

/-- C6: an input record is in the work queue iff its slot is absent from
the pre-existing output, regardless of position; the work queue is the
remaining input records in input-file order (a sublist of the input);
scenario: slots [100, 101, 102] with 101 already processed give exactly
[100, 102], in that order. -/
theorem work_queue_dedup (inputs : List BoostRelayDataEntry)
    (outputs : List OutputFileEntry) :
    (∀ e, e ∈ workQueue inputs outputs ↔ e ∈ inputs ∧ e.slot ∉ slotsOf outputs) ∧
    (workQueue inputs outputs).Sublist inputs ∧
    workQueue [in100, in101, in102] [out101] = [in100, in102] :=
  ⟨fun _ => mem_workQueue, List.filter_sublist _, by decide⟩

/-- C7: a second batch run over the same input with the output file
retained first writes the retained records back unchanged and in order
(the output is always `existing ++ fresh`), reproduces exactly the first
run's output, and its work queue — the only items for which the per-item
task (and hence any RPC) is ever invoked — contains no already-processed
slot.  `proc` is the per-item task; the hypothesis states the one fact
the pipeline relies on: a produced record carries its input's slot. -/
theorem batch_idempotent (proc : BoostRelayDataEntry → Option OutputFileEntry) (k : Nat)
    (inputs : List BoostRelayDataEntry)
    (hslot : ∀ e r, proc e = some r → r.slot = e.slot) :
    (∀ existing, ∃ fresh, runBatch proc k inputs existing = existing ++ fresh) ∧
    runBatch proc k inputs (runBatch proc k inputs []) = runBatch proc k inputs [] ∧
    ∀ e ∈ workQueue inputs (runBatch proc k inputs []),
      e.slot ∉ slotsOf (runBatch proc k inputs []) := by
  refine ⟨fun existing => ⟨_, by rw [runBatch, runChunks_eq]⟩, ?_, ?_⟩
  · have hnone : ∀ e ∈ workQueue inputs (runBatch proc k inputs []), proc e = none := by
      intro e he
      rcases hp : proc e with _ | r
      · rfl
      · exfalso
        have he1 : e ∈ workQueue inputs [] := by
          rw [workQueue_nil]
        
          exact (mem_workQueue.mp he).1
        have hr1 : r ∈ runBatch proc k inputs [] := mem_runBatch_of_success he1 hp
        have : e.slot ∈ slotsOf (runBatch proc k inputs []) := by
          rw [← hslot e r hp]
          exact List.mem_map.mpr ⟨r, hr1, rfl⟩
        exact (mem_workQueue.mp he).2 this
    rw [runBatch, runChunks_eq]
    have hflat : ((chunksOf k (workQueue inputs (runBatch proc k inputs []))).map
        (processChunk proc)).flatten = [] := by
      refine List.flatten_eq_nil_iff.mpr ?_
      intro l hl
      obtain ⟨c, hc, rfl⟩ := List.mem_map.mp hl
      refine processChunk_eq_nil ?_
      intro e hec
      refine hnone e ?_
      have : e ∈ (chunksOf k (workQueue inputs (runBatch proc k inputs []))).flatten :=
        List.mem_flatten.mpr ⟨c, hc, hec⟩
      rwa [chunksOf_flatten] at this
    rw [hflat, List.append_nil]
  · intro e he
    exact (mem_workQueue.mp he).2

def procW (e : BoostRelayDataEntry) : Option OutputFileEntry :=
  if e.block_number = 0 then none
  else some ⟨e.slot, e.block_number, e.value, 0, "unknown", 0, 0, 0, 0⟩

def inputsW : List BoostRelayDataEntry := [⟨3, 0, 0, 5⟩, ⟨1, 0, 0, 0⟩, ⟨2, 0, 0, 4⟩]

/-- C7, witness: three inputs (one failing), chunk size 2; re-running on
the first run's output reproduces it. -/
theorem batch_idempotent_witness :
    runBatch procW 2 inputsW (runBatch procW 2 inputsW []) = runBatch procW 2 inputsW [] := by
  have h := batch_idempotent procW 2 inputsW
    (fun e r hr => by
      unfold procW at hr
      split at hr
      · cases hr
      · cases hr
        rfl)
  exact h.2.1

/-- C8: the persisted output is the retained records followed by the
chunks' result blocks in chunk order (all of chunk `i`'s rows precede all
of chunk `i+1`'s rows, because each chunk is fully awaited, sorted and
appended before the next starts), and every single chunk's block is
sorted ascending by slot. -/
theorem chunk_output_ordering (proc : BoostRelayDataEntry → Option OutputFileEntry)
    (k : Nat) (inputs : List BoostRelayDataEntry) (existing : List OutputFileEntry) :
    runBatch proc k inputs existing
      = existing ++ ((chunksOf k (workQueue inputs existing)).map (processChunk proc)).flatten ∧
    ∀ c ∈ chunksOf k (workQueue inputs existing),
      List.Sorted slotLe (processChunk proc c) := by
  refine ⟨by rw [runBatch, runChunks_eq], ?_⟩
  intro c _
  exact List.sorted_insertionSort slotLe _

def rowOf (e : BoostRelayDataEntry) : OutputFileEntry :=
  ⟨e.slot, e.block_number, e.value, 0, "unknown", 0, 0, 0, 0⟩

def procD (e : BoostRelayDataEntry) : Option OutputFileEntry :=
  if e.slot = 2 then none else some (rowOf e)

def eD1 : BoostRelayDataEntry := ⟨1, 0, 0, 0⟩

def eD2 : BoostRelayDataEntry := ⟨2, 0, 0, 0⟩

def eD3 : BoostRelayDataEntry := ⟨3, 0, 0, 0⟩

/-- C9: a chunk's result block contains a row exactly for each item whose
task succeeded — failed items are dropped, contributing no row at all
(never a partial one), while sibling successes are kept; the block is
sorted by slot; the loop then continues with the remaining chunks
unconditionally; scenario: a chunk of 3 items whose middle item fails
yields exactly the two rows of items 1 and 3, sorted by slot. -/
theorem chunk_failure_isolated (proc : BoostRelayDataEntry → Option OutputFileEntry)
    (c : List BoostRelayDataEntry) :
    (∀ r, r ∈ processChunk proc c ↔ ∃ e ∈ c, proc e = some r) ∧
    List.Sorted slotLe (processChunk proc c) ∧
    (∀ acc rest, runChunks proc acc (c :: rest)
      = runChunks proc (acc ++ processChunk proc c) rest) ∧
    processChunk procD [eD1, eD2, eD3] = [rowOf eD1, rowOf eD3] :=
  ⟨fun _ => mem_processChunk, List.sorted_insertionSort slotLe _,
   fun _ _ => rfl, by decide⟩
